import Mathlib

/-!
Shallow embedding of `src/find_duplicates.py` (class `FileDuplicateFinder`
and the `main` entry point).

Modelling conventions:
  - A file discovered by `os.walk` is a `FileEntry`: its absolute path, its
    bare filename, its size as reported by `os.path.getsize`, and the outcome
    of opening/reading it (`ReadOutcome`), which models what happens inside
    `calculate_hash`'s `try` block: either the full byte content is read, or
    a `PermissionError` is raised, or some other `OSError` is raised.
  - A scan input is the list of `FileEntry` values in the exact order
    `os.walk` discovers them.
  - `hashlib.sha256(...).hexdigest()` is external library code; it is
    abstracted as a function `hashFn : List Nat -> String` from full byte
    content to hex digest, passed as a parameter.  The chunked read loop of
    `calculate_hash` is modelled explicitly (`readChunks`), and feeding the
    chunks incrementally into the digest is modelled as hashing the
    concatenation of the chunks.
  - Python's `dict` preserves insertion order and `defaultdict(list)` with
    `append` builds insertion-ordered buckets, so the hash-to-paths mapping
    is modelled as an association list with unique keys (`addToBucket`,
    `groupPairs`).
  - `executor.map(self.calculate_hash, files_to_check)` returns results in
    input order (documented behaviour of `concurrent.futures`), so the
    parallel hashing phase is modelled as `List.map`.
  - Python truthiness of `if file_hash:` (None and the empty string are
    falsy) is modelled in `stepBucket`.
  - `FileEntry`/`find_duplicate_files` assume every `os.path.getsize`
    call succeeds.  The refined model (`RawEntry`, `gatherCandidates`,
    `find_duplicate_filesFull`) drops that assumption and models the
    uncaught `OSError` that `os.path.getsize` (line 82, outside any
    `try`) raises when a file vanishes between the walk listing and the
    stat call, aborting the scan.
-/

namespace FindDup

/-- Outcome of opening and reading one file inside `calculate_hash`:
either the full byte content, a raised `PermissionError`, or another
raised `OSError` carrying a message. -/
inductive ReadOutcome where
  | ok (content : List Nat)
  | permissionDenied
  | ioError (msg : String)
deriving DecidableEq, Repr

/-- One regular file discovered by the `os.walk` traversal in
`find_duplicate_files`: its joined path, its bare filename, the size
reported by `os.path.getsize`, and what happens when it is later opened
and read. -/
structure FileEntry where
  path : String
  filename : String
  size : Nat
  readOutcome : ReadOutcome
deriving DecidableEq, Repr

/-- The configuration state stored by `FileDuplicateFinder.__init__`. -/
structure Config where
  directory : String
  ignore_patterns : List String
  min_file_size : Int
deriving Repr

/-- Python `x or []` applied to an optional list (falsy values: `None` and
the empty list). -/
def pyOrNil : Option (List String) → List String
  | none => []
  | some l => if l = [] then [] else l

/-- `FileDuplicateFinder.__init__`: `ignore_patterns` defaults to `None`
and is replaced by `ignore_patterns or []`; `min_file_size` defaults
to `1`.  An omitted keyword argument is modelled as `none`.  (The
`os.path.abspath` normalisation of `directory` is external path
arithmetic and is kept abstract: the string is stored as given.) -/
def initConfig (directory : String) (ignore_patterns : Option (List String))
    (min_file_size : Option Int) : Config :=
  { directory := directory
    ignore_patterns := pyOrNil ignore_patterns
    min_file_size := min_file_size.getD 1 }

/-- `main`: `argparse` supplies `args.ignore = None` when `--ignore` is
absent and `args.min_size = 1024` when `--min-size` is absent, and the
finder is constructed with `ignore_patterns=args.ignore or []`,
`min_file_size=args.min_size`. -/
def mainConfig (directory : String) (ignoreArg : Option (List String))
    (minSizeArg : Option Int) : Config :=
  initConfig directory (some (pyOrNil ignoreArg)) (some (minSizeArg.getD 1024))

/-- Is `pat` a prefix of `s`?  (Helper for Python's substring test.) -/
def isPre : List Char → List Char → Bool
  | [], _ => true
  | _ :: _, [] => false
  | a :: ps, b :: ss => a = b && isPre ps ss

/-- Does `pat` occur contiguously in `s`?  Models Python's
`pat in s` on strings; the empty pattern occurs in every string. -/
def isSub (pat : List Char) : List Char → Bool
  | [] => (match pat with | [] => true | _ :: _ => false)
  | b :: ss => isPre pat (b :: ss) || isSub pat ss

/-- Python `pattern in filename` for strings: substring containment. -/
def substrOf (pat s : String) : Bool :=
  isSub pat.data s.data

/-- `FileDuplicateFinder._should_ignore_file`: `any(pattern in filename
for pattern in self.ignore_patterns)`. -/
def should_ignore_file (cfg : Config) (filename : String) : Bool :=
  cfg.ignore_patterns.any (fun pattern => substrOf pattern filename)

/-- The candidate test inlined in `find_duplicate_files`:
`os.path.getsize(file_path) >= self.min_file_size and not
self._should_ignore_file(filename)`. -/
def passesFilter (cfg : Config) (f : FileEntry) : Bool :=
  cfg.min_file_size ≤ (f.size : Int) && !should_ignore_file cfg f.filename

/-- The chunked read loop `while chunk := f.read(chunk_size)` of
`calculate_hash`, with explicit fuel (each iteration consumes at least
one byte when `chunkSize > 0`, so `content.length` fuel suffices). -/
def readChunksFuel (chunkSize : Nat) : Nat → List Nat → List (List Nat)
  | 0, _ => []
  | _, [] => []
  | fuel + 1, b :: rest =>
      (b :: rest).take chunkSize :: readChunksFuel chunkSize fuel ((b :: rest).drop chunkSize)

/-- The sequence of chunks read by `calculate_hash`.  With `chunkSize = 0`
Python's `f.read(0)` returns `b''` immediately and the loop body never
runs, so no chunk is produced. -/
def readChunks (chunkSize : Nat) (content : List Nat) : List (List Nat) :=
  if chunkSize = 0 then [] else readChunksFuel chunkSize content.length content

/-- `FileDuplicateFinder.calculate_hash`: streams the file in chunks into
an incremental SHA-256 digest and returns the hex digest, or returns
`None` after logging when a `PermissionError` or any other `OSError` is
raised while opening or reading.  Feeding chunks incrementally into the
digest equals digesting their concatenation. -/
def calculate_hash (hashFn : List Nat → String) (chunkSize : Nat)
    (f : FileEntry) : Option String :=
  match f.readOutcome with
  | .ok content =>
      some (hashFn (List.foldl (fun acc chunk => acc ++ chunk) []
        (readChunks chunkSize content)))
  | .permissionDenied => none
  | .ioError _ => none

/-- `file_hashes[file_hash].append(file_path)` on an insertion-ordered
association list: append to the existing bucket, or create a new bucket
at the end. -/
def addToBucket : List (String × List String) → String → String → List (String × List String)
  | [], h, p => [(h, [p])]
  | (k, ps) :: rest, h, p =>
      if k = h then (k, ps ++ [p]) :: rest else (k, ps) :: addToBucket rest h p

/-- One iteration of the grouping loop: `if file_hash:
file_hashes[file_hash].append(file_path)`.  `None` and the empty string
are falsy in Python. -/
def stepBucket (b : List (String × List String)) : String × Option String → List (String × List String)
  | (_, none) => b
  | (p, some h) => if h = "" then b else addToBucket b h p

/-- The grouping loop `for file_path, file_hash in zip(files_to_check,
hash_results)`. -/
def groupPairs (b : List (String × List String)) : List (String × Option String) → List (String × List String)
  | [] => b
  | pr :: rest => groupPairs (stepBucket b pr) rest

/-- `FileDuplicateFinder.find_duplicate_files`: enumerate candidates in
discovery order, hash them (in input order), group paths by hash, and
keep only hashes with more than one path.  `files` is the list of
discovered files in `os.walk` order. -/
def find_duplicate_files (hashFn : List Nat → String) (cfg : Config)
    (files : List FileEntry) : List (String × List String) :=
  let files_to_check := files.filter (passesFilter cfg)
  let hash_results := files_to_check.map (calculate_hash hashFn 8192)
  let pairs := (files_to_check.map (fun f => f.path)).zip hash_results
  (groupPairs [] pairs).filter (fun e => 1 < e.2.length)

/-- The (path, hash-result) pairs the grouping loop runs over. -/
def pairsOf (hashFn : List Nat → String) (cfg : Config)
    (files : List FileEntry) : List (String × Option String) :=
  (files.filter (passesFilter cfg)).map
    (fun f => (f.path, calculate_hash hashFn 8192 f))

/-- The paths appended to the bucket of hash `h`, in order. -/
def newPaths (h : String) (pairs : List (String × Option String)) : List String :=
  (pairs.filter (fun q => q.2 = some h)).map Prod.fst

/-- The bucket contents of hash `h` for a given scan, in discovery order. -/
def groupPaths (hashFn : List Nat → String) (cfg : Config)
    (files : List FileEntry) (h : String) : List String :=
  newPaths h (pairsOf hashFn cfg files)

/-- Lookup in the insertion-ordered association list of buckets. -/
def lookupB : List (String × List String) → String → Option (List String)
  | [], _ => none
  | (k, ps) :: rest, h => if k = h then some ps else lookupB rest h

/-- Merge the initial content of a bucket with newly appended paths. -/
def mergeOpt : Option (List String) → List String → Option (List String)
  | some ps, qs => some (ps ++ qs)
  | none, qs => if qs = [] then none else some qs

/-! ### Refined model: the uncaught `os.path.getsize` error path

`os.path.getsize(file_path)` on line 82 of `find_duplicate_files` is
outside any `try` block.  If a file vanishes (or its metadata becomes
unreadable) between the `os.walk` listing and this stat call, the raised
`OSError` propagates out of `find_duplicate_files` and aborts the whole
scan (it is caught only by `main`'s `except Exception`, which exits with
status 1).  The refined model makes that path explicit: each discovered
entry carries the outcome of its stat call, and the scan returns either
the duplicate-group result or the propagated error message. -/

/-- Outcome of the `os.path.getsize` call on one discovered file: the
size, or a raised `OSError` carrying a message. -/
inductive StatOutcome where
  | ok (size : Nat)
  | osError (msg : String)
deriving DecidableEq, Repr

/-- A file discovered by `os.walk`, before its size is known: the stat
call itself may raise. -/
structure RawEntry where
  path : String
  filename : String
  statResult : StatOutcome
  readOutcome : ReadOutcome
deriving DecidableEq, Repr

/-- The candidate-collection loop of `find_duplicate_files` (lines
77-84): for each discovered file, `os.path.getsize` is evaluated first;
if it raises, the exception propagates and the scan aborts; otherwise
the file is appended to `files_to_check` iff it passes the size and
ignore filters. -/
def gatherCandidates (cfg : Config) : List RawEntry → Except String (List RawEntry)
  | [] => Except.ok []
  | f :: rest =>
      match f.statResult with
      | StatOutcome.osError m => Except.error m
      | StatOutcome.ok sz =>
          match gatherCandidates cfg rest with
          | Except.error m => Except.error m
          | Except.ok cs =>
              if cfg.min_file_size ≤ (sz : Int) && !should_ignore_file cfg f.filename
              then Except.ok (f :: cs) else Except.ok cs

/-- `calculate_hash` on a discovered entry (depends only on the read
outcome). -/
def calculate_hashR (hashFn : List Nat → String) (chunkSize : Nat)
    (f : RawEntry) : Option String :=
  match f.readOutcome with
  | .ok content =>
      some (hashFn (List.foldl (fun acc chunk => acc ++ chunk) []
        (readChunks chunkSize content)))
  | .permissionDenied => none
  | .ioError _ => none

/-- The hashing and grouping phase applied to the gathered candidates
(lines 86-96). -/
def hashAndGroup (hashFn : List Nat → String) (files_to_check : List RawEntry) :
    List (String × List String) :=
  let hash_results := files_to_check.map (calculate_hashR hashFn 8192)
  let pairs := (files_to_check.map (fun f => f.path)).zip hash_results
  (groupPairs [] pairs).filter (fun e => 1 < e.2.length)

/-- `find_duplicate_files` with the uncaught stat-error path made
explicit: a raised `OSError` from `os.path.getsize` aborts the scan,
otherwise the gathered candidates are hashed and grouped as before. -/
def find_duplicate_filesFull (hashFn : List Nat → String) (cfg : Config)
    (files : List RawEntry) : Except String (List (String × List String)) :=
  match gatherCandidates cfg files with
  | Except.error m => Except.error m
  | Except.ok files_to_check => Except.ok (hashAndGroup hashFn files_to_check)

/-! ### Lemmas about the chunked read loop -/

/-- Folding the chunks produced with positive chunk size over append
reconstructs the content. -/
theorem readChunksFuel_foldl (c : Nat) (hc : 0 < c) :
    ∀ (fuel : Nat) (content : List Nat), content.length ≤ fuel →
      ∀ acc : List Nat,
        List.foldl (fun a b => a ++ b) acc (readChunksFuel c fuel content) = acc ++ content := by
  intro fuel
  induction fuel with
  | zero =>
      intro content hlen acc
      have : content = [] := List.eq_nil_of_length_eq_zero (Nat.le_zero.mp hlen)
      subst this
      simp [readChunksFuel]
  | succ n ih =>
      intro content hlen acc
      cases content with
      | nil => simp [readChunksFuel]
      | cons b rest =>
          have hdrop : ((b :: rest).drop c).length ≤ n := by
            have := List.length_drop c (b :: rest)
            simp only [List.length_cons] at hlen this
            omega
          simp only [readChunksFuel, List.foldl_cons]
          rw [ih _ hdrop]
          rw [List.append_assoc, List.take_append_drop]

/-- On a successfully read file, `calculate_hash` returns the digest of
the full byte content. -/
theorem calculate_hash_ok (hashFn : List Nat → String) (f : FileEntry)
    (content : List Nat) (hf : f.readOutcome = .ok content) :
    calculate_hash hashFn 8192 f = some (hashFn content) := by
  simp only [calculate_hash, hf, readChunks]
  rw [if_neg (by omega)]
  rw [readChunksFuel_foldl 8192 (by omega) content.length content (le_refl _) []]
  rfl

/-- On a file whose open or read raises, `calculate_hash` returns `None`. -/
theorem calculate_hash_none (hashFn : List Nat → String) (chunkSize : Nat)
    (f : FileEntry)
    (hf : f.readOutcome = .permissionDenied ∨ ∃ m, f.readOutcome = .ioError m) :
    calculate_hash hashFn chunkSize f = none := by
  rcases hf with hf | ⟨m, hf⟩ <;> simp [calculate_hash, hf]

/-! ### Lemmas about bucket construction -/

theorem lookupB_addToBucket (b : List (String × List String)) (h0 p h : String) :
    lookupB (addToBucket b h0 p) h =
      if h = h0 then some (((lookupB b h0).getD []) ++ [p]) else lookupB b h := by
  induction b with
  | nil =>
      by_cases hh : h = h0
      · subst hh; simp [addToBucket, lookupB]
      · have h1 : ¬ h0 = h := fun hc => hh hc.symm
        simp [addToBucket, lookupB, hh, h1]
  | cons kv rest ih =>
      obtain ⟨k, ps⟩ := kv
      by_cases hk : k = h0
      · subst hk
        by_cases hh : h = k
        · subst hh; simp [addToBucket, lookupB]
        · have h1 : ¬ k = h := fun hc => hh hc.symm
          simp [addToBucket, lookupB, hh, h1]
      · by_cases hh : k = h
        · subst hh
          have h1 : ¬ k = h0 := hk
          have h2 : ¬ h0 = k := fun hc => hk hc.symm
          simp [addToBucket, lookupB, h1, h2, fun hc : k = h0 => hk hc]
        · simp [addToBucket, lookupB, hk, hh, ih]

theorem lookupB_eq_none_iff (b : List (String × List String)) (h : String) :
    lookupB b h = none ↔ h ∉ b.map Prod.fst := by
  induction b with
  | nil => simp [lookupB]
  | cons kv rest ih =>
      obtain ⟨k, ps⟩ := kv
      by_cases hk : k = h
      · subst hk; simp [lookupB]
      · have h1 : ¬ h = k := fun hc => hk hc.symm
        simp [lookupB, hk, h1, ih]

theorem addToBucket_keys (b : List (String × List String)) (h0 p : String) :
    (addToBucket b h0 p).map Prod.fst =
      if h0 ∈ b.map Prod.fst then b.map Prod.fst else b.map Prod.fst ++ [h0] := by
  induction b with
  | nil => simp [addToBucket]
  | cons kv rest ih =>
      obtain ⟨k, ps⟩ := kv
      by_cases hk : k = h0
      · subst hk; simp [addToBucket]
      · have h1 : ¬ h0 = k := fun hc => hk hc.symm
        simp only [addToBucket, if_neg hk, List.map_cons, ih, List.mem_cons]
        by_cases hmem : h0 ∈ rest.map Prod.fst
        · simp [hmem, h1]
        · simp [hmem, h1]

theorem addToBucket_keys_nodup (b : List (String × List String)) (h0 p : String)
    (hnd : (b.map Prod.fst).Nodup) : ((addToBucket b h0 p).map Prod.fst).Nodup := by
  rw [addToBucket_keys]
  split
  · exact hnd
  · next hmem =>
      simp only [List.nodup_append, List.nodup_cons, List.nodup_nil]
      exact ⟨hnd, by simp, by simpa [List.disjoint_right] using hmem⟩

theorem mem_iff_lookupB (b : List (String × List String)) (h : String) (ps : List String)
    (hnd : (b.map Prod.fst).Nodup) : (h, ps) ∈ b ↔ lookupB b h = some ps := by
  induction b with
  | nil => simp [lookupB]
  | cons kv rest ih =>
      obtain ⟨k, qs⟩ := kv
      simp only [List.map_cons, List.nodup_cons] at hnd
      by_cases hk : k = h
      · subst hk
        simp only [lookupB, if_pos rfl, List.mem_cons]
        constructor
        · rintro (heq | hmem)
          · cases heq; rfl
          · exact absurd (List.mem_map.mpr ⟨(k, ps), hmem, rfl⟩) hnd.1
        · rintro heq
          cases heq
          exact Or.inl rfl
      · simp only [lookupB, if_neg hk, List.mem_cons]
        rw [← ih hnd.2]
        constructor
        · rintro (heq | hmem)
          · cases heq; exact absurd rfl hk
          · exact hmem
        · exact Or.inr

theorem stepBucket_keys_nodup (b : List (String × List String))
    (pr : String × Option String) (hnd : (b.map Prod.fst).Nodup) :
    ((stepBucket b pr).map Prod.fst).Nodup := by
  obtain ⟨p, oh⟩ := pr
  cases oh with
  | none => exact hnd
  | some h =>
      by_cases hh : h = ""
      · simpa [stepBucket, hh] using hnd
      · simpa [stepBucket, hh] using addToBucket_keys_nodup b h p hnd

theorem groupPairs_keys_nodup (pairs : List (String × Option String)) :
    ∀ b : List (String × List String), (b.map Prod.fst).Nodup →
      ((groupPairs b pairs).map Prod.fst).Nodup := by
  induction pairs with
  | nil => intro b hnd; exact hnd
  | cons pr rest ih =>
      intro b hnd
      exact ih _ (stepBucket_keys_nodup b pr hnd)

theorem lookupB_groupPairs_empty (pairs : List (String × Option String)) :
    ∀ b : List (String × List String), lookupB (groupPairs b pairs) "" = lookupB b "" := by
  induction pairs with
  | nil => intro b; rfl
  | cons pr rest ih =>
      intro b
      obtain ⟨p, oh⟩ := pr
      cases oh with
      | none => exact ih b
      | some h =>
          by_cases hh : h = ""
          · simpa [groupPairs, stepBucket, hh] using ih b
          · have h1 : ¬ ("" : String) = h := fun hc => hh hc.symm
            simp only [groupPairs, stepBucket, if_neg hh]
            rw [ih (addToBucket b h p), lookupB_addToBucket, if_neg h1]

theorem mergeOpt_push (L : Option (List String)) (p : String) (qs : List String) :
    mergeOpt (some ((L.getD []) ++ [p])) qs = mergeOpt L (p :: qs) := by
  cases L with
  | none => simp [mergeOpt]
  | some ps => simp [mergeOpt]

theorem lookupB_groupPairs (h : String) (hne : h ≠ "")
    (pairs : List (String × Option String)) :
    ∀ b : List (String × List String),
      lookupB (groupPairs b pairs) h = mergeOpt (lookupB b h) (newPaths h pairs) := by
  induction pairs with
  | nil =>
      intro b
      cases hb : lookupB b h <;> simp [groupPairs, newPaths, mergeOpt, hb]
  | cons pr rest ih =>
      intro b
      obtain ⟨p, oh⟩ := pr
      cases oh with
      | none => simpa [groupPairs, stepBucket, newPaths] using ih b
      | some h0 =>
          have hgp : groupPairs b ((p, some h0) :: rest) =
              groupPairs (stepBucket b (p, some h0)) rest := rfl
          by_cases hh0 : h0 = ""
          · subst hh0
            have hstep : stepBucket b (p, some "") = b := by simp [stepBucket]
            have hnp : newPaths h ((p, some "") :: rest) = newPaths h rest := by
              simp [newPaths, List.filter_cons, Ne.symm hne]
            rw [hgp, hstep, hnp]
            exact ih b
          · have hstep : stepBucket b (p, some h0) = addToBucket b h0 p := by
              simp [stepBucket, hh0]
            by_cases hh : h0 = h
            · subst hh
              have hnp : newPaths h0 ((p, some h0) :: rest) = p :: newPaths h0 rest := by
                simp [newPaths, List.filter_cons]
              rw [hgp, hstep, hnp, ih (addToBucket b h0 p), lookupB_addToBucket, if_pos rfl]
              exact mergeOpt_push (lookupB b h0) p (newPaths h0 rest)
            · have h1 : ¬ h = h0 := fun hc => hh hc.symm
              have hnp : newPaths h ((p, some h0) :: rest) = newPaths h rest := by
                simp [newPaths, List.filter_cons, hh]
              rw [hgp, hstep, hnp, ih (addToBucket b h0 p), lookupB_addToBucket, if_neg h1]

theorem find_duplicate_files_eq (hashFn : List Nat → String) (cfg : Config)
    (files : List FileEntry) :
    find_duplicate_files hashFn cfg files =
      (groupPairs [] (pairsOf hashFn cfg files)).filter (fun e => 1 < e.2.length) := by
  simp only [find_duplicate_files, pairsOf, List.zip_map']

theorem mem_find_duplicate_files (hashFn : List Nat → String) (cfg : Config)
    (files : List FileEntry) (h : String) (ps : List String) :
    (h, ps) ∈ find_duplicate_files hashFn cfg files ↔
      h ≠ "" ∧ ps = groupPaths hashFn cfg files h ∧ 1 < ps.length := by
  rw [find_duplicate_files_eq, List.mem_filter]
  have hnd : ((groupPairs [] (pairsOf hashFn cfg files)).map Prod.fst).Nodup :=
    groupPairs_keys_nodup _ [] (by simp)
  rw [mem_iff_lookupB _ _ _ hnd]
  constructor
  · rintro ⟨hlk, hlen⟩
    by_cases hh : h = ""
    · subst hh
      rw [lookupB_groupPairs_empty] at hlk
      simp [lookupB] at hlk
    · rw [lookupB_groupPairs h hh] at hlk
      simp only [lookupB, mergeOpt] at hlk
      split at hlk
      · exact absurd hlk (by simp)
      · refine ⟨hh, ?_, by simpa using hlen⟩
        simp only [groupPaths]
        exact (Option.some.inj hlk).symm
  · rintro ⟨hh, hps, hlen⟩
    rw [lookupB_groupPairs h hh]
    simp only [lookupB, mergeOpt]
    have hnil : newPaths h (pairsOf hashFn cfg files) ≠ [] := by
      intro hc
      rw [hps] at hlen
      simp only [groupPaths, hc] at hlen
      simp at hlen
    rw [if_neg hnil]
    exact ⟨by rw [hps]; rfl, by simpa using hlen⟩

theorem mem_groupPaths (hashFn : List Nat → String) (cfg : Config)
    (files : List FileEntry) (h : String) (p : String) :
    p ∈ groupPaths hashFn cfg files h ↔
      ∃ f, f ∈ files ∧ passesFilter cfg f = true ∧
        calculate_hash hashFn 8192 f = some h ∧ f.path = p := by
  simp only [groupPaths, newPaths, pairsOf, List.mem_map, List.mem_filter,
    decide_eq_true_eq]
  constructor
  · rintro ⟨⟨q1, q2⟩, ⟨⟨f, ⟨hf, hpass⟩, hfe⟩, hq2⟩, hfst⟩
    cases hfe
    exact ⟨f, hf, hpass, hq2, hfst⟩
  · rintro ⟨f, hf, hpass, hhash, hpath⟩
    exact ⟨(f.path, calculate_hash hashFn 8192 f), ⟨⟨f, ⟨hf, hpass⟩, rfl⟩, hhash⟩, hpath⟩

theorem groupPairs_append (l1 l2 : List (String × Option String)) :
    ∀ b : List (String × List String),
      groupPairs b (l1 ++ l2) = groupPairs (groupPairs b l1) l2 := by
  induction l1 with
  | nil => intro b; rfl
  | cons pr rest ih => intro b; exact ih (stepBucket b pr)

/-- A candidate whose hash comes back `None` contributes nothing: the scan
result is the same as if the file had never been discovered. -/
theorem find_dup_drop_unreadable (hashFn : List Nat → String) (cfg : Config)
    (pre post : List FileEntry) (u : FileEntry)
    (hu : calculate_hash hashFn 8192 u = none) :
    find_duplicate_files hashFn cfg (pre ++ u :: post) =
      find_duplicate_files hashFn cfg (pre ++ post) := by
  rw [find_duplicate_files_eq, find_duplicate_files_eq]
  have h2 : pairsOf hashFn cfg (pre ++ post) =
      pairsOf hashFn cfg pre ++ pairsOf hashFn cfg post := by
    simp [pairsOf, List.filter_append]
  by_cases hp : passesFilter cfg u = true
  · have h1 : pairsOf hashFn cfg (pre ++ u :: post) =
        pairsOf hashFn cfg pre ++ (u.path, none) :: pairsOf hashFn cfg post := by
      simp [pairsOf, List.filter_append, List.filter_cons, hp, hu]
    rw [h1, h2, groupPairs_append, groupPairs_append]
    rfl
  · have h1 : pairsOf hashFn cfg (pre ++ u :: post) = pairsOf hashFn cfg (pre ++ post) := by
      simp [pairsOf, List.filter_append, List.filter_cons, hp]
    rw [h1]

/-- Permuting the discovery order permutes each bucket's path list. -/
theorem groupPaths_perm (hashFn : List Nat → String) (cfg : Config)
    {files1 files2 : List FileEntry} (hp : files1.Perm files2) (h : String) :
    (groupPaths hashFn cfg files1 h).Perm (groupPaths hashFn cfg files2 h) := by
  unfold groupPaths newPaths pairsOf
  exact (((hp.filter _).map _).filter _).map _

/-- Each bucket's path list is a subsequence of the discovery order. -/
theorem groupPaths_sublist (hashFn : List Nat → String) (cfg : Config)
    (files : List FileEntry) (h : String) :
    (groupPaths hashFn cfg files h).Sublist (files.map FileEntry.path) := by
  unfold groupPaths newPaths pairsOf
  have h1 : (((files.filter (passesFilter cfg)).map
        (fun f => (f.path, calculate_hash hashFn 8192 f))).filter
          (fun q => q.2 = some h)).Sublist
      ((files.filter (passesFilter cfg)).map
        (fun f => (f.path, calculate_hash hashFn 8192 f))) :=
    List.filter_sublist _
  have h2 := h1.map Prod.fst
  rw [List.map_map] at h2
  have h3 : (Prod.fst ∘ fun f : FileEntry => (f.path, calculate_hash hashFn 8192 f)) =
      FileEntry.path := rfl
  rw [h3] at h2
  exact h2.trans ((List.filter_sublist files).map FileEntry.path)

theorem one_lt_length_of_two_mem {l : List String} {a b : String}
    (ha : a ∈ l) (hb : b ∈ l) (hne : a ≠ b) : 1 < l.length := by
  cases l with
  | nil => simp at ha
  | cons x xs =>
      cases xs with
      | nil =>
          simp only [List.mem_singleton] at ha hb
          exact absurd (ha.trans hb.symm) hne
      | cons y ys => simp only [List.length_cons]; omega

theorem isSub_nil (s : List Char) : isSub [] s = true := by
  cases s with
  | nil => rfl
  | cons b ss => simp [isSub, isPre]

theorem should_ignore_of_empty_mem (cfg : Config) (fn : String)
    (hmem : "" ∈ cfg.ignore_patterns) : should_ignore_file cfg fn = true := by
  simp only [should_ignore_file, List.any_eq_true]
  exact ⟨"", hmem, by simp [substrOf, isSub_nil]⟩

theorem path_inj {files : List FileEntry} (hnd : (files.map FileEntry.path).Nodup)
    {f g : FileEntry} (hf : f ∈ files) (hg : g ∈ files) (he : f.path = g.path) : f = g :=
  List.inj_on_of_nodup_map hnd hf hg he

/-! ### Claim theorems -/

/-- C1: two files with identical byte content, both passing the size and
ignore filters and both successfully read, are placed together in exactly
one duplicate group by `find_duplicate_files`, because `calculate_hash`
is a function of the byte content alone (the SHA-256 hex digest), so
identical content yields identical fingerprints.  (`hashFn` abstracts the
SHA-256 hex digest, which is never the empty string; paths of distinct
discovered files are distinct.) -/
theorem C1_identical_content_same_group (hashFn : List Nat → String) (cfg : Config)
    (files : List FileEntry) (f g : FileEntry) (c : List Nat)
    (hnz : ∀ content, hashFn content ≠ "")
    (hnd : (files.map FileEntry.path).Nodup)
    (hfm : f ∈ files) (hgm : g ∈ files) (hne : f.path ≠ g.path)
    (hfc : f.readOutcome = .ok c) (hgc : g.readOutcome = .ok c)
    (hff : passesFilter cfg f = true) (hgf : passesFilter cfg g = true) :
    ∃! e : String × List String,
      e ∈ find_duplicate_files hashFn cfg files ∧ f.path ∈ e.2 ∧ g.path ∈ e.2 := by
  have hcf : calculate_hash hashFn 8192 f = some (hashFn c) := calculate_hash_ok hashFn f c hfc
  have hcg : calculate_hash hashFn 8192 g = some (hashFn c) := calculate_hash_ok hashFn g c hgc
  have hpf : f.path ∈ groupPaths hashFn cfg files (hashFn c) :=
    (mem_groupPaths hashFn cfg files (hashFn c) f.path).mpr ⟨f, hfm, hff, hcf, rfl⟩
  have hpg : g.path ∈ groupPaths hashFn cfg files (hashFn c) :=
    (mem_groupPaths hashFn cfg files (hashFn c) g.path).mpr ⟨g, hgm, hgf, hcg, rfl⟩
  have hlen : 1 < (groupPaths hashFn cfg files (hashFn c)).length :=
    one_lt_length_of_two_mem hpf hpg hne
  refine ⟨(hashFn c, groupPaths hashFn cfg files (hashFn c)),
    ⟨(mem_find_duplicate_files hashFn cfg files _ _).mpr ⟨hnz c, rfl, hlen⟩, hpf, hpg⟩, ?_⟩
  rintro ⟨h', ps'⟩ ⟨he', hf', _⟩
  obtain ⟨hh', hps', hlen'⟩ := (mem_find_duplicate_files hashFn cfg files h' ps').mp he'
  subst hps'
  obtain ⟨f', hf'm, _, hf'h, hf'path⟩ :=
    (mem_groupPaths hashFn cfg files h' f.path).mp hf'
  have hfe : f' = f := path_inj hnd hf'm hfm hf'path
  subst hfe
  have hhe : h' = hashFn c := Option.some.inj (hf'h.symm.trans hcf)
  subst hhe
  rfl

/-- C1 witness: two 10-byte files with the same content land together in
exactly one group. -/
theorem C1_witness :
    ∃! e : String × List String,
      e ∈ find_duplicate_files (fun _ => "h") ⟨"d", [], 1⟩
          [⟨"/a/x", "x", 10, .ok [1, 2]⟩, ⟨"/a/y", "y", 10, .ok [1, 2]⟩] ∧
        "/a/x" ∈ e.2 ∧ "/a/y" ∈ e.2 :=
  C1_identical_content_same_group (fun _ => "h") ⟨"d", [], 1⟩
    [⟨"/a/x", "x", 10, .ok [1, 2]⟩, ⟨"/a/y", "y", 10, .ok [1, 2]⟩]
    ⟨"/a/x", "x", 10, .ok [1, 2]⟩ ⟨"/a/y", "y", 10, .ok [1, 2]⟩ [1, 2]
    (by intro c; simp) (by decide) (by decide) (by decide) (by decide)
    rfl rfl (by decide) (by decide)

/-- C2: every entry of the mapping returned by `find_duplicate_files` has
at least 2 paths; singleton buckets are filtered out. -/
theorem C2_groups_have_at_least_two (hashFn : List Nat → String) (cfg : Config)
    (files : List FileEntry) (e : String × List String)
    (he : e ∈ find_duplicate_files hashFn cfg files) : 2 ≤ e.2.length := by
  rw [find_duplicate_files_eq] at he
  have h2 := (List.mem_filter.mp he).2
  simp only [decide_eq_true_eq] at h2
  omega

/-- C2 witness: a concrete scan result entry has two paths. -/
theorem C2_witness :
    2 ≤ (("h", ["/a/x", "/a/y"]) : String × List String).2.length :=
  C2_groups_have_at_least_two (fun _ => "h") ⟨"d", [], 1⟩
    [⟨"/a/x", "x", 10, .ok [1, 2]⟩, ⟨"/a/y", "y", 10, .ok [1, 2]⟩]
    ("h", ["/a/x", "/a/y"]) (by decide)

/-- C3: a discovered file is a hashing candidate iff its size is at least
the configured minimum (inclusive) and its filename contains none of the
ignore substrings; with an empty pattern list nothing is pattern-excluded. -/
theorem C3_candidate_iff (cfg : Config) (files : List FileEntry) (f : FileEntry)
    (hf : f ∈ files) :
    (f ∈ files.filter (passesFilter cfg) ↔
      (cfg.min_file_size ≤ (f.size : Int) ∧
        ∀ pat ∈ cfg.ignore_patterns, substrOf pat f.filename = false)) ∧
    (cfg.ignore_patterns = [] → should_ignore_file cfg f.filename = false) := by
  constructor
  · rw [List.mem_filter]
    simp [hf, passesFilter, should_ignore_file, Bool.and_eq_true,
      Bool.not_eq_true', List.any_eq_true, decide_eq_true_eq]
  · intro hp
    simp [should_ignore_file, hp]

/-- C3 witness: a 10-byte file with no matching ignore pattern is a
candidate under minimum size 1 and empty pattern list. -/
theorem C3_witness :
    ((⟨"/a/x", "x", 10, .ok [1, 2]⟩ : FileEntry) ∈
        [(⟨"/a/x", "x", 10, .ok [1, 2]⟩ : FileEntry)].filter (passesFilter ⟨"d", [], 1⟩) ↔
      ((⟨"d", [], 1⟩ : Config).min_file_size ≤ ((10 : Nat) : Int) ∧
        ∀ pat ∈ (⟨"d", [], 1⟩ : Config).ignore_patterns, substrOf pat "x" = false)) ∧
    ((⟨"d", [], 1⟩ : Config).ignore_patterns = [] →
      should_ignore_file ⟨"d", [], 1⟩ "x" = false) :=
  C3_candidate_iff ⟨"d", [], 1⟩ [⟨"/a/x", "x", 10, .ok [1, 2]⟩]
    ⟨"/a/x", "x", 10, .ok [1, 2]⟩ (by decide)

/-- C4: `calculate_hash` never propagates a read failure: on a
`PermissionError` it returns `None`, and on any other `OSError` raised
while opening or reading it returns `None`. -/
theorem C4_hash_error_returns_none (hashFn : List Nat → String) (chunkSize : Nat)
    (f : FileEntry) :
    (f.readOutcome = .permissionDenied → calculate_hash hashFn chunkSize f = none) ∧
    (∀ m, f.readOutcome = .ioError m → calculate_hash hashFn chunkSize f = none) :=
  ⟨fun h => calculate_hash_none hashFn chunkSize f (Or.inl h),
   fun m h => calculate_hash_none hashFn chunkSize f (Or.inr ⟨m, h⟩)⟩

/-- C4 witness: both failure kinds yield `None` on concrete files. -/
theorem C4_witness :
    calculate_hash (fun _ => "h") 8192 ⟨"/p", "p", 5, .permissionDenied⟩ = none ∧
    calculate_hash (fun _ => "h") 8192 ⟨"/q", "q", 5, .ioError "disk"⟩ = none :=
  ⟨(C4_hash_error_returns_none (fun _ => "h") 8192 ⟨"/p", "p", 5, .permissionDenied⟩).1 rfl,
   (C4_hash_error_returns_none (fun _ => "h") 8192 ⟨"/q", "q", 5, .ioError "disk"⟩).2 "disk" rfl⟩

theorem find_dup_mem_of_perm (hashFn : List Nat → String) (cfg : Config)
    {files1 files2 : List FileEntry} (hp : files1.Perm files2) (h p : String)
    (hx : ∃ ps, (h, ps) ∈ find_duplicate_files hashFn cfg files1 ∧ p ∈ ps) :
    ∃ ps, (h, ps) ∈ find_duplicate_files hashFn cfg files2 ∧ p ∈ ps := by
  have hgp := groupPaths_perm hashFn cfg hp h
  obtain ⟨ps, hmem, hpmem⟩ := hx
  obtain ⟨hh, hps, hlen⟩ := (mem_find_duplicate_files hashFn cfg files1 h ps).mp hmem
  subst hps
  refine ⟨groupPaths hashFn cfg files2 h,
    (mem_find_duplicate_files hashFn cfg files2 h _).mpr ⟨hh, rfl, ?_⟩, ?_⟩
  · rw [← hgp.length_eq]
    exact hlen
  · exact hgp.mem_iff.mp hpmem

/-- C6: the duplicate-group result, read as a fingerprint-to-set-of-paths
mapping, is invariant under the order in which the walk discovers the
files. -/
theorem C6_order_independent (hashFn : List Nat → String) (cfg : Config)
    (files1 files2 : List FileEntry) (hp : files1.Perm files2) (h p : String) :
    (∃ ps, (h, ps) ∈ find_duplicate_files hashFn cfg files1 ∧ p ∈ ps) ↔
    (∃ ps, (h, ps) ∈ find_duplicate_files hashFn cfg files2 ∧ p ∈ ps) :=
  ⟨find_dup_mem_of_perm hashFn cfg hp h p, find_dup_mem_of_perm hashFn cfg hp.symm h p⟩

/-- C6 witness: swapping two discovered files leaves group membership
unchanged. -/
theorem C6_witness :
    (∃ ps, ("h", ps) ∈ find_duplicate_files (fun _ => "h") ⟨"d", [], 1⟩
        [⟨"/a/x", "x", 10, .ok [1, 2]⟩, ⟨"/a/y", "y", 10, .ok [1, 2]⟩] ∧ "/a/x" ∈ ps) ↔
    (∃ ps, ("h", ps) ∈ find_duplicate_files (fun _ => "h") ⟨"d", [], 1⟩
        [⟨"/a/y", "y", 10, .ok [1, 2]⟩, ⟨"/a/x", "x", 10, .ok [1, 2]⟩] ∧ "/a/x" ∈ ps) :=
  C6_order_independent (fun _ => "h") ⟨"d", [], 1⟩
    [⟨"/a/x", "x", 10, .ok [1, 2]⟩, ⟨"/a/y", "y", 10, .ok [1, 2]⟩]
    [⟨"/a/y", "y", 10, .ok [1, 2]⟩, ⟨"/a/x", "x", 10, .ok [1, 2]⟩]
    (List.Perm.swap _ _ _) "h" "/a/x"

/-- C7: every path in a returned group belongs to a discovered file whose
hash is the group's fingerprint, whose size meets the minimum, and whose
filename matches no ignore pattern; and a path appears in at most one
group. -/
theorem C7_group_invariants (hashFn : List Nat → String) (cfg : Config)
    (files : List FileEntry) (hnd : (files.map FileEntry.path).Nodup)
    (h1 h2 : String) (ps1 ps2 : List String) (p : String)
    (he1 : (h1, ps1) ∈ find_duplicate_files hashFn cfg files) (hp1 : p ∈ ps1) :
    (∃ f, f ∈ files ∧ f.path = p ∧ calculate_hash hashFn 8192 f = some h1 ∧
      cfg.min_file_size ≤ (f.size : Int) ∧ should_ignore_file cfg f.filename = false) ∧
    ((h2, ps2) ∈ find_duplicate_files hashFn cfg files → p ∈ ps2 →
      h2 = h1 ∧ ps2 = ps1) := by
  obtain ⟨hh1, hps1, hlen1⟩ := (mem_find_duplicate_files hashFn cfg files h1 ps1).mp he1
  subst hps1
  obtain ⟨f, hfm, hfp, hfh, hfpath⟩ := (mem_groupPaths hashFn cfg files h1 p).mp hp1
  have hsz : cfg.min_file_size ≤ (f.size : Int) ∧
      should_ignore_file cfg f.filename = false := by
    simpa [passesFilter, Bool.and_eq_true, Bool.not_eq_true', decide_eq_true_eq] using hfp
  refine ⟨⟨f, hfm, hfpath, hfh, hsz.1, hsz.2⟩, ?_⟩
  intro he2 hp2
  obtain ⟨hh2, hps2, hlen2⟩ := (mem_find_duplicate_files hashFn cfg files h2 ps2).mp he2
  subst hps2
  obtain ⟨f2, hf2m, hf2p, hf2h, hf2path⟩ := (mem_groupPaths hashFn cfg files h2 p).mp hp2
  have hfe : f2 = f := path_inj hnd hf2m hfm (hf2path.trans hfpath.symm)
  subst hfe
  have hhe : h2 = h1 := Option.some.inj (hf2h.symm.trans hfh)
  subst hhe
  exact ⟨rfl, rfl⟩

/-- C7 witness: applies the invariants to a concrete two-file scan. -/
theorem C7_witness :
    (∃ f, f ∈ [(⟨"/a/x", "x", 10, .ok [1, 2]⟩ : FileEntry),
        ⟨"/a/y", "y", 10, .ok [1, 2]⟩] ∧ f.path = "/a/x" ∧
      calculate_hash (fun _ => "h") 8192 f = some "h" ∧
      (⟨"d", [], 1⟩ : Config).min_file_size ≤ (f.size : Int) ∧
      should_ignore_file ⟨"d", [], 1⟩ f.filename = false) ∧
    (("h", ["/a/x", "/a/y"]) ∈ find_duplicate_files (fun _ => "h") ⟨"d", [], 1⟩
        [⟨"/a/x", "x", 10, .ok [1, 2]⟩, ⟨"/a/y", "y", 10, .ok [1, 2]⟩] →
      "/a/x" ∈ (["/a/x", "/a/y"] : List String) →
      "h" = "h" ∧ (["/a/x", "/a/y"] : List String) = ["/a/x", "/a/y"]) :=
  C7_group_invariants (fun _ => "h") ⟨"d", [], 1⟩
    [⟨"/a/x", "x", 10, .ok [1, 2]⟩, ⟨"/a/y", "y", 10, .ok [1, 2]⟩]
    (by decide) "h" "h" ["/a/x", "/a/y"] ["/a/x", "/a/y"] "/a/x"
    (by decide) (by decide)

/-- C9: each returned group lists its paths exactly as the bucket was
built from the candidates in discovery order, hence as a subsequence of
the walk's discovery order (hash results are zipped back positionally). -/
theorem C9_group_preserves_discovery_order (hashFn : List Nat → String)
    (cfg : Config) (files : List FileEntry) (h : String) (ps : List String)
    (he : (h, ps) ∈ find_duplicate_files hashFn cfg files) :
    ps = groupPaths hashFn cfg files h ∧ ps.Sublist (files.map FileEntry.path) := by
  obtain ⟨hh, hps, hlen⟩ := (mem_find_duplicate_files hashFn cfg files h ps).mp he
  subst hps
  exact ⟨rfl, groupPaths_sublist hashFn cfg files h⟩

/-- C9 witness: the concrete group ["/a/x", "/a/y"] is in discovery
order. -/
theorem C9_witness :
    (["/a/x", "/a/y"] : List String) = groupPaths (fun _ => "h") ⟨"d", [], 1⟩
        [⟨"/a/x", "x", 10, .ok [1, 2]⟩, ⟨"/a/y", "y", 10, .ok [1, 2]⟩] "h" ∧
    (["/a/x", "/a/y"] : List String).Sublist
      ([(⟨"/a/x", "x", 10, .ok [1, 2]⟩ : FileEntry),
        ⟨"/a/y", "y", 10, .ok [1, 2]⟩].map FileEntry.path) :=
  C9_group_preserves_discovery_order (fun _ => "h") ⟨"d", [], 1⟩
    [⟨"/a/x", "x", 10, .ok [1, 2]⟩, ⟨"/a/y", "y", 10, .ok [1, 2]⟩]
    "h" ["/a/x", "/a/y"] (by decide)

/-- C10: if the ignore-pattern list contains the empty string, every file
is excluded (the empty string is a substring of every filename) and the
scan returns an empty mapping. -/
theorem C10_empty_pattern_excludes_everything (hashFn : List Nat → String)
    (cfg : Config) (files : List FileEntry) (hmem : "" ∈ cfg.ignore_patterns) :
    find_duplicate_files hashFn cfg files = [] := by
  rw [find_duplicate_files_eq]
  have hfil : files.filter (passesFilter cfg) = [] := by
    rw [List.filter_eq_nil_iff]
    intro f hf
    simp [passesFilter, should_ignore_of_empty_mem cfg f.filename hmem]
  have hpairs : pairsOf hashFn cfg files = [] := by simp [pairsOf, hfil]
  rw [hpairs]
  rfl

/-- C10 witness: with ignore pattern list [""], two identical files
produce no groups. -/
theorem C10_witness :
    find_duplicate_files (fun _ => "h") ⟨"d", [""], 1⟩
        [⟨"/a/x", "x", 10, .ok [1, 2]⟩, ⟨"/a/y", "y", 10, .ok [1, 2]⟩] = [] :=
  C10_empty_pattern_excludes_everything (fun _ => "h") ⟨"d", [""], 1⟩
    [⟨"/a/x", "x", 10, .ok [1, 2]⟩, ⟨"/a/y", "y", 10, .ok [1, 2]⟩] (by decide)

/-- C8 counterexample: a caller that omits `min_file_size` when
constructing `FileDuplicateFinder` gets threshold 1, not 1024, and the
resulting scan groups 6-byte files. -/
theorem C8_counterexample :
    (initConfig "d" none none).min_file_size = 1 ∧
    (initConfig "d" none none).min_file_size ≠ 1024 ∧
    find_duplicate_files (fun _ => "h") (initConfig "d" none none)
        [⟨"/a/x", "x", 6, .ok [104, 105]⟩, ⟨"/a/y", "y", 6, .ok [104, 105]⟩] =
      [("h", ["/a/x", "/a/y"])] :=
  ⟨rfl, by decide, by decide⟩

/-- C8 (amended): the 1024-byte default lives in the CLI layer: `main`
invoked without `--min-size` configures the scan with minimum size 1024,
so every path in every group then belongs to a file of size at least
1024; the constructor default itself is 1. -/
theorem C8_cli_default_1024 (d : String) (ig : Option (List String))
    (hashFn : List Nat → String) (files : List FileEntry)
    (e : String × List String) (p : String)
    (he : e ∈ find_duplicate_files hashFn (mainConfig d ig none) files)
    (hp : p ∈ e.2) :
    (mainConfig d ig none).min_file_size = 1024 ∧
    ∃ f, f ∈ files ∧ f.path = p ∧ 1024 ≤ (f.size : Int) := by
  have hmin : (mainConfig d ig none).min_file_size = 1024 := rfl
  refine ⟨hmin, ?_⟩
  obtain ⟨h, ps⟩ := e
  obtain ⟨hh, hps, hlen⟩ :=
    (mem_find_duplicate_files hashFn (mainConfig d ig none) files h ps).mp he
  subst hps
  obtain ⟨f, hfm, hfp, hfh, hfpath⟩ :=
    (mem_groupPaths hashFn (mainConfig d ig none) files h p).mp hp
  have hsz : (mainConfig d ig none).min_file_size ≤ (f.size : Int) := by
    have hconj := hfp
    simp only [passesFilter, Bool.and_eq_true, decide_eq_true_eq] at hconj
    exact hconj.1
  rw [hmin] at hsz
  exact ⟨f, hfm, hfpath, hsz⟩

/-- C8 witness: a group produced under the CLI default contains only
paths of files of size at least 1024. -/
theorem C8_witness :
    (mainConfig "d" none none).min_file_size = 1024 ∧
    ∃ f, f ∈ [(⟨"/a/x", "x", 2000, .ok [1]⟩ : FileEntry),
        ⟨"/a/y", "y", 2000, .ok [1]⟩] ∧ f.path = "/a/x" ∧ 1024 ≤ (f.size : Int) :=
  C8_cli_default_1024 "d" none (fun _ => "h")
    [⟨"/a/x", "x", 2000, .ok [1]⟩, ⟨"/a/y", "y", 2000, .ok [1]⟩]
    ("h", ["/a/x", "/a/y"]) "/a/x" (by decide) (by decide)

/-! ### Lemmas about the refined model -/

theorem calculate_hashR_none (hashFn : List Nat → String) (chunkSize : Nat)
    (f : RawEntry)
    (hf : f.readOutcome = .permissionDenied ∨ ∃ m, f.readOutcome = .ioError m) :
    calculate_hashR hashFn chunkSize f = none := by
  rcases hf with hf | ⟨m, hf⟩ <;> simp [calculate_hashR, hf]

theorem full_eq_of_gather_ok (hashFn : List Nat → String) (cfg : Config)
    {files : List RawEntry} {c : List RawEntry}
    (h : gatherCandidates cfg files = Except.ok c) :
    find_duplicate_filesFull hashFn cfg files = Except.ok (hashAndGroup hashFn c) := by
  simp [find_duplicate_filesFull, h]

theorem full_eq_of_gather_error (hashFn : List Nat → String) (cfg : Config)
    {files : List RawEntry} {m : String}
    (h : gatherCandidates cfg files = Except.error m) :
    find_duplicate_filesFull hashFn cfg files = Except.error m := by
  simp [find_duplicate_filesFull, h]

theorem gather_cons_err_stat (cfg : Config) {f : RawEntry} {m : String}
    (rest : List RawEntry) (hf : f.statResult = StatOutcome.osError m) :
    gatherCandidates cfg (f :: rest) = Except.error m := by
  simp [gatherCandidates, hf]

theorem gather_cons_err_rest (cfg : Config) {f : RawEntry} {sz : Nat}
    {rest : List RawEntry} {m : String} (hf : f.statResult = StatOutcome.ok sz)
    (h : gatherCandidates cfg rest = Except.error m) :
    gatherCandidates cfg (f :: rest) = Except.error m := by
  simp [gatherCandidates, hf, h]

theorem gather_cons_ok (cfg : Config) {f : RawEntry} {sz : Nat}
    {rest cs : List RawEntry} (hf : f.statResult = StatOutcome.ok sz)
    (h : gatherCandidates cfg rest = Except.ok cs) :
    gatherCandidates cfg (f :: rest) =
      Except.ok (if cfg.min_file_size ≤ (sz : Int) && !should_ignore_file cfg f.filename
        then f :: cs else cs) := by
  simp only [gatherCandidates, hf, h]
  split <;> rfl

theorem gather_append_error_left (cfg : Config) {l1 : List RawEntry}
    (l2 : List RawEntry) {m : String}
    (h : gatherCandidates cfg l1 = Except.error m) :
    gatherCandidates cfg (l1 ++ l2) = Except.error m := by
  induction l1 with
  | nil => simp [gatherCandidates] at h
  | cons f rest ih =>
      rw [List.cons_append]
      cases hf : f.statResult with
      | osError m2 =>
          rw [gather_cons_err_stat cfg rest hf] at h
          cases h
          exact gather_cons_err_stat cfg _ hf
      | ok sz =>
          cases hrest : gatherCandidates cfg rest with
          | error m2 =>
              rw [gather_cons_err_rest cfg hf hrest] at h
              cases h
              exact gather_cons_err_rest cfg hf (ih hrest)
          | ok cs =>
              rw [gather_cons_ok cfg hf hrest] at h
              cases h

theorem gather_append_ok (cfg : Config) {l1 l2 c1 c2 : List RawEntry}
    (h1 : gatherCandidates cfg l1 = Except.ok c1)
    (h2 : gatherCandidates cfg l2 = Except.ok c2) :
    gatherCandidates cfg (l1 ++ l2) = Except.ok (c1 ++ c2) := by
  induction l1 generalizing c1 with
  | nil =>
      simp only [gatherCandidates] at h1
      cases h1
      simpa using h2
  | cons f rest ih =>
      rw [List.cons_append]
      cases hf : f.statResult with
      | osError m =>
          rw [gather_cons_err_stat cfg rest hf] at h1
          cases h1
      | ok sz =>
          cases hrest : gatherCandidates cfg rest with
          | error m =>
              rw [gather_cons_err_rest cfg hf hrest] at h1
              cases h1
          | ok cs =>
              rw [gather_cons_ok cfg hf hrest] at h1
              rw [gather_cons_ok cfg hf (ih hrest)]
              split at h1 <;> cases h1 <;> split <;> simp_all

theorem gather_append_error_right (cfg : Config) {l1 l2 c1 : List RawEntry}
    {m : String} (h1 : gatherCandidates cfg l1 = Except.ok c1)
    (h2 : gatherCandidates cfg l2 = Except.error m) :
    gatherCandidates cfg (l1 ++ l2) = Except.error m := by
  induction l1 generalizing c1 with
  | nil => simpa using h2
  | cons f rest ih =>
      rw [List.cons_append]
      cases hf : f.statResult with
      | osError m2 =>
          rw [gather_cons_err_stat cfg rest hf] at h1
          cases h1
      | ok sz =>
          cases hrest : gatherCandidates cfg rest with
          | error m2 =>
              rw [gather_cons_err_rest cfg hf hrest] at h1
              cases h1
          | ok cs =>
              exact gather_cons_err_rest cfg hf (ih hrest)

/-- The first stat failure in the walk aborts the scan with its error. -/
theorem gather_stat_abort (cfg : Config) {pre2 post2 : List RawEntry}
    {v : RawEntry} {m : String} (hv : v.statResult = StatOutcome.osError m)
    (hpre : ∀ w ∈ pre2, ∃ sz, w.statResult = StatOutcome.ok sz) :
    gatherCandidates cfg (pre2 ++ v :: post2) = Except.error m := by
  induction pre2 with
  | nil =>
      rw [List.nil_append]
      exact gather_cons_err_stat cfg post2 hv
  | cons w rest ih =>
      obtain ⟨sz, hwsz⟩ := hpre w (List.mem_cons_self w rest)
      have hrest := ih (fun x hx => hpre x (List.mem_cons_of_mem w hx))
      rw [List.cons_append]
      exact gather_cons_err_rest cfg hwsz hrest

theorem groupPairs_none_mid (b : List (String × List String))
    (l1 l2 : List (String × Option String)) (p : String) :
    groupPairs b (l1 ++ (p, none) :: l2) = groupPairs b (l1 ++ l2) := by
  rw [groupPairs_append, groupPairs_append]
  rfl

theorem hashAndGroup_pairs (hashFn : List Nat → String) (l : List RawEntry) :
    hashAndGroup hashFn l =
      (groupPairs [] (l.map (fun f => (f.path, calculate_hashR hashFn 8192 f)))).filter
        (fun e => 1 < e.2.length) := by
  simp only [hashAndGroup, List.zip_map']

theorem hashAndGroup_drop_none (hashFn : List Nat → String)
    (c1 c2 : List RawEntry) (u : RawEntry)
    (hu : calculate_hashR hashFn 8192 u = none) :
    hashAndGroup hashFn (c1 ++ u :: c2) = hashAndGroup hashFn (c1 ++ c2) := by
  rw [hashAndGroup_pairs, hashAndGroup_pairs]
  congr 1
  rw [List.map_append, List.map_cons, hu, List.map_append]
  exact groupPairs_none_mid [] _ _ u.path

/-- In the refined model, a candidate whose stat succeeded but whose read
fails contributes nothing to the scan result. -/
theorem full_drop_unreadable (hashFn : List Nat → String) (cfg : Config)
    (pre post : List RawEntry) (u : RawEntry) (sz : Nat)
    (hu : calculate_hashR hashFn 8192 u = none)
    (hsz : u.statResult = StatOutcome.ok sz) :
    find_duplicate_filesFull hashFn cfg (pre ++ u :: post) =
      find_duplicate_filesFull hashFn cfg (pre ++ post) := by
  cases hpre : gatherCandidates cfg pre with
  | error m =>
      rw [full_eq_of_gather_error hashFn cfg (gather_append_error_left cfg _ hpre),
        full_eq_of_gather_error hashFn cfg (gather_append_error_left cfg _ hpre)]
  | ok c1 =>
      cases hpost : gatherCandidates cfg post with
      | error m =>
          have hl : gatherCandidates cfg (u :: post) = Except.error m :=
            gather_cons_err_rest cfg hsz hpost
          rw [full_eq_of_gather_error hashFn cfg (gather_append_error_right cfg hpre hl),
            full_eq_of_gather_error hashFn cfg (gather_append_error_right cfg hpre hpost)]
      | ok c2 =>
          have hl := gather_cons_ok cfg hsz hpost
          by_cases hpass :
              (cfg.min_file_size ≤ (sz : Int) && !should_ignore_file cfg u.filename) = true
          · rw [if_pos hpass] at hl
            rw [full_eq_of_gather_ok hashFn cfg (gather_append_ok cfg hpre hl),
              full_eq_of_gather_ok hashFn cfg (gather_append_ok cfg hpre hpost),
              hashAndGroup_drop_none hashFn c1 c2 u hu]
          · rw [if_neg hpass] at hl
            rw [full_eq_of_gather_ok hashFn cfg (gather_append_ok cfg hpre hl),
              full_eq_of_gather_ok hashFn cfg (gather_append_ok cfg hpre hpost)]

/-- C5 counterexample: the claim "a read failure of any single file is
fully isolated and there is no scan-ending failure other than root
unreadability" is false of the code.  A file that vanishes between the
`os.walk` listing and the `os.path.getsize` call (line 82, outside any
`try`) raises an `OSError` that aborts the entire scan, losing the
grouping of the two unrelated identical files, whereas the same scan
without the vanished file groups them. -/
theorem C5_counterexample :
    find_duplicate_filesFull (fun _ => "h") ⟨"d", [], 1⟩
        [⟨"/a/x", "x", .ok 10, .ok [1, 2]⟩,
         ⟨"/u", "u", .osError "vanished", .ioError "vanished"⟩,
         ⟨"/a/y", "y", .ok 10, .ok [1, 2]⟩] = Except.error "vanished" ∧
    find_duplicate_filesFull (fun _ => "h") ⟨"d", [], 1⟩
        [⟨"/a/x", "x", .ok 10, .ok [1, 2]⟩, ⟨"/a/y", "y", .ok 10, .ok [1, 2]⟩] =
      Except.ok [("h", ["/a/x", "/a/y"])] :=
  ⟨rfl, rfl⟩

/-- C5 (amended): a failure while opening or reading a file at hashing
time is fully isolated: the scan result with such a file discovered
anywhere in the walk equals the result without it.  But the isolation
does not extend to enumeration: a file whose `os.path.getsize` call
raises (the first such file in walk order) aborts the whole scan with
that error. -/
theorem C5_isolation_and_stat_abort (hashFn : List Nat → String) (cfg : Config)
    (pre post : List RawEntry) (u : RawEntry)
    (hu : u.readOutcome = .permissionDenied ∨ ∃ m, u.readOutcome = .ioError m)
    (hustat : ∃ sz, u.statResult = StatOutcome.ok sz) :
    (find_duplicate_filesFull hashFn cfg (pre ++ u :: post) =
      find_duplicate_filesFull hashFn cfg (pre ++ post)) ∧
    (∀ (pre2 post2 : List RawEntry) (v : RawEntry) (m : String),
      v.statResult = StatOutcome.osError m →
      (∀ w ∈ pre2, ∃ sz, w.statResult = StatOutcome.ok sz) →
      find_duplicate_filesFull hashFn cfg (pre2 ++ v :: post2) = Except.error m) := by
  constructor
  · obtain ⟨sz, hsz⟩ := hustat
    exact full_drop_unreadable hashFn cfg pre post u sz
      (calculate_hashR_none hashFn 8192 u hu) hsz
  · intro pre2 post2 v m hv hpre
    exact full_eq_of_gather_error hashFn cfg (gather_stat_abort cfg hv hpre)

/-- C5 witness: a permission-denied file between two duplicates is
dropped without changing the result, while a stat failure in the same
position aborts the scan. -/
theorem C5_witness :
    (find_duplicate_filesFull (fun _ => "h") ⟨"d", [], 1⟩
        ([⟨"/a/x", "x", .ok 10, .ok [1, 2]⟩] ++ ⟨"/u", "u", .ok 7, .permissionDenied⟩ ::
          [⟨"/a/y", "y", .ok 10, .ok [1, 2]⟩]) =
      find_duplicate_filesFull (fun _ => "h") ⟨"d", [], 1⟩
        ([⟨"/a/x", "x", .ok 10, .ok [1, 2]⟩] ++ [⟨"/a/y", "y", .ok 10, .ok [1, 2]⟩])) ∧
    find_duplicate_filesFull (fun _ => "h") ⟨"d", [], 1⟩
        ([⟨"/a/x", "x", .ok 10, .ok [1, 2]⟩] ++ ⟨"/v", "v", .osError "gone", .ioError "gone"⟩ ::
          [⟨"/a/y", "y", .ok 10, .ok [1, 2]⟩]) = Except.error "gone" :=
  ⟨(C5_isolation_and_stat_abort (fun _ => "h") ⟨"d", [], 1⟩
      [⟨"/a/x", "x", .ok 10, .ok [1, 2]⟩] [⟨"/a/y", "y", .ok 10, .ok [1, 2]⟩]
      ⟨"/u", "u", .ok 7, .permissionDenied⟩ (Or.inl rfl) ⟨7, rfl⟩).1,
   (C5_isolation_and_stat_abort (fun _ => "h") ⟨"d", [], 1⟩
      [⟨"/a/x", "x", .ok 10, .ok [1, 2]⟩] [⟨"/a/y", "y", .ok 10, .ok [1, 2]⟩]
      ⟨"/u", "u", .ok 7, .permissionDenied⟩ (Or.inl rfl) ⟨7, rfl⟩).2
    [⟨"/a/x", "x", .ok 10, .ok [1, 2]⟩] [⟨"/a/y", "y", .ok 10, .ok [1, 2]⟩]
    ⟨"/v", "v", .osError "gone", .ioError "gone"⟩ "gone" rfl
    (by
      intro w hw
      rw [List.mem_singleton] at hw
      subst hw
      exact ⟨10, rfl⟩)⟩

end FindDup
